import Mathlib

/-!
Verification development for the repository's structural indexer
(`analyze_repo.py`).  The Python source is shallowly embedded below:
byte strings become `List Nat` (each entry one byte), the tree-sitter
parser and query engine — an external library — is abstracted as an
oracle record supplying, per file content and query category, either the
captured node byte-spans or an exception message, and the `main` walk
becomes a pure function over a snapshot of directory entries.
-/

namespace AnalyzeRepo

/-! ## Bytes and Python `bytes.strip()` emptiness

`if not content_bytes.strip():` (analyze_repo.py line 141) is true
exactly when every byte of the content is ASCII whitespace
(`b" \t\n\r\x0b\x0c"`), including the empty content. -/

def pythonWhitespace : List Nat := [32, 9, 10, 13, 11, 12]

def bytesStripIsEmpty (content : List Nat) : Bool :=
  content.all (fun b => decide (b ∈ pythonWhitespace))

/-! ## `os.path.splitext` on a bare file name

`main` computes `_, extension = os.path.splitext(filename)` where
`filename` comes from `os.walk` and therefore contains no path
separator.  CPython (`genericpath._splitext`): the extension starts at
the last dot, unless every character before that dot is itself a dot
(leading dots of a bare name never start an extension). -/

def splitextExtAux (name : List Char) : List Char :=
  let r := name.reverse
  let i := r.findIdx (fun c => c = '.')
  if i = r.length then []
  else if (r.drop (i + 1)).all (fun c => c = '.') then []
  else '.' :: (r.take i).reverse

def splitext_ext (name : String) : String :=
  String.mk (splitextExtAux name.toList)

/-- The configured extension sets (analyze_repo.py lines 11-12). -/
def VALID_CPP_EXTENSIONS : List String := [".h", ".cpp", ".i"]

def VALID_PYTHON_EXTENSIONS : List String := [".py"]

/-! ## Python `str.strip` of the three characters (analyze_repo.py line 61) -/

def stripSet : List Char := ['"', '<', '>']

def inStripSet (c : Char) : Bool := decide (c ∈ stripSet)

def stripEdges (l : List Char) : List Char :=
  ((l.dropWhile inStripSet).reverse.dropWhile inStripSet).reverse

def pyStrip (s : String) : String :=
  String.mk (stripEdges s.toList)

/-! ## UTF-8 decoding with `errors="ignore"` (analyze_repo.py line 40)

`get_node_text` runs `content_bytes[start:end].decode("utf-8",
errors="ignore")`.  CPython's strict UTF-8 decoder reports, for each
ill-formed subsequence, its maximal valid subpart (per the Unicode
recommendation); the "ignore" handler then drops exactly those bytes
and resumes.  Concretely: an invalid start byte is skipped alone; a
valid lead byte whose k-th continuation byte is invalid is skipped
together with the k-1 valid continuation bytes before it; a truncated
sequence at end of input is dropped entirely.  The decoder below
returns the decoded code points. -/

def isCont (b : Nat) : Bool := 0x80 ≤ b && b ≤ 0xBF

/-- Admissible first continuation byte of a three-byte sequence
(E0: A0..BF excludes overlong forms, ED: 80..9F excludes surrogates). -/
def cont1ok3 (b c1 : Nat) : Bool :=
  if b = 0xE0 then 0xA0 ≤ c1 && c1 ≤ 0xBF
  else if b = 0xED then 0x80 ≤ c1 && c1 ≤ 0x9F
  else isCont c1

/-- Admissible first continuation byte of a four-byte sequence
(F0: 90..BF excludes overlong forms, F4: 80..8F bounds U+10FFFF). -/
def cont1ok4 (b c1 : Nat) : Bool :=
  if b = 0xF0 then 0x90 ≤ c1 && c1 ≤ 0xBF
  else if b = 0xF4 then 0x80 ≤ c1 && c1 ≤ 0x8F
  else isCont c1

def utf8DecodeIgnore : List Nat → List Nat
  | [] => []
  | b :: rest =>
    if b < 0x80 then b :: utf8DecodeIgnore rest
    else if b < 0xC2 then utf8DecodeIgnore rest
    else if b ≤ 0xDF then
      match rest with
      | [] => []
      | c1 :: r1 =>
        if isCont c1 then
          ((b - 0xC0) * 0x40 + (c1 - 0x80)) :: utf8DecodeIgnore r1
        else utf8DecodeIgnore (c1 :: r1)
    else if b ≤ 0xEF then
      match rest with
      | [] => []
      | c1 :: r1 =>
        if cont1ok3 b c1 then
          match r1 with
          | [] => []
          | c2 :: r2 =>
            if isCont c2 then
              ((b - 0xE0) * 0x1000 + (c1 - 0x80) * 0x40 + (c2 - 0x80)) ::
                utf8DecodeIgnore r2
            else utf8DecodeIgnore (c2 :: r2)
        else utf8DecodeIgnore (c1 :: r1)
    else if b ≤ 0xF4 then
      match rest with
      | [] => []
      | c1 :: r1 =>
        if cont1ok4 b c1 then
          match r1 with
          | [] => []
          | c2 :: r2 =>
            if isCont c2 then
              match r2 with
              | [] => []
              | c3 :: r3 =>
                if isCont c3 then
                  ((b - 0xF0) * 0x40000 + (c1 - 0x80) * 0x1000 +
                    (c2 - 0x80) * 0x40 + (c3 - 0x80)) :: utf8DecodeIgnore r3
                else utf8DecodeIgnore (c3 :: r3)
            else utf8DecodeIgnore (c2 :: r2)
        else utf8DecodeIgnore (c1 :: r1)
    else utf8DecodeIgnore rest

/-- `get_node_text` (analyze_repo.py lines 39-40): slice the byte span
`[start_byte, end_byte)` out of the content and decode it, ignoring
undecodable subsequences.  Result as a list of code points. -/
def get_node_text (content : List Nat) (startByte endByte : Nat) : List Nat :=
  utf8DecodeIgnore ((content.drop startByte).take (endByte - startByte))

def cpToString (l : List Nat) : String :=
  String.mk (l.map Char.ofNat)

/-- The standard UTF-8 encoder, used to state that the tolerant decoder
decodes exactly the valid subsequences of its input. -/
def utf8EncodeCp (c : Nat) : List Nat :=
  if c < 0x80 then [c]
  else if c < 0x800 then [0xC0 + c / 0x40, 0x80 + c % 0x40]
  else if c < 0x10000 then
    [0xE0 + c / 0x1000, 0x80 + c / 0x40 % 0x40, 0x80 + c % 0x40]
  else
    [0xF0 + c / 0x40000, 0x80 + c / 0x1000 % 0x40,
      0x80 + c / 0x40 % 0x40, 0x80 + c % 0x40]

def utf8Encode : List Nat → List Nat
  | [] => []
  | c :: r => utf8EncodeCp c ++ utf8Encode r

/-! ## The normalisation step (analyze_repo.py lines 66-67)

`file_data[key] = sorted(list(set(file_data[key])))`: remove duplicates
under exact string equality, then sort ascending.  Python compares
strings lexicographically by code point; `pyLe` below is that order,
written as a structurally recursive Boolean function so that it
evaluates.  Python's `set` iteration order is unspecified but `sorted`
canonicalises it, so the composite is modelled as dedup followed by a
sort. -/

def charListLe : List Char → List Char → Bool
  | [], _ => true
  | _ :: _, [] => false
  | a :: as, b :: bs =>
    if a.toNat < b.toNat then true
    else if b.toNat < a.toNat then false
    else charListLe as bs

def pyLe (a b : String) : Prop := charListLe a.toList b.toList = true

instance : DecidableRel pyLe := fun a b =>
  inferInstanceAs (Decidable (charListLe a.toList b.toList = true))

def normalize (l : List String) : List String :=
  List.insertionSort pyLe l.dedup

/-! ## The tree-sitter oracle

The parser and query engine are an external C library.  Their observable
behaviour in this program is abstracted as three functions: whether
opening/reading a path raises, whether `parser.parse(content_bytes)`
raises, and — per (content, category key) — either the byte spans of the
captured nodes (in the order the `captures` dictionary iteration yields
them) or the message of an exception raised while compiling or running
that category's query.  tree-sitter parses and queries are deterministic
functions of the byte content, so a fixed snapshot fixes the oracle. -/

structure TSOracle where
  readErr : String → Option String
  parseErr : List Nat → Option String
  queryRes : List Nat → String → Except String (List (Nat × Nat))

/-! ## `parse_file_data` (analyze_repo.py lines 42-68)

The per-category loop: each category key of the query-definition table
gets a list, filled from the captured nodes (none of the configured
query strings or capture-name lists is empty, so the `continue` guard on
line 50 never fires); includes/imports are stripped of `"<>`; a
per-category exception (lines 52-64) is caught before any append, so
that category's list stays `[]` and no error is recorded; finally every
list is deduplicated and sorted. -/

def collectCategory (o : TSOracle) (content : List Nat) (key : String) :
    List String :=
  match o.queryRes content key with
  | .error _ => []
  | .ok spans =>
    spans.map fun sp =>
      let t := cpToString (get_node_text content sp.1 sp.2)
      if key = "includes" ∨ key = "imports" then pyStrip t else t

def parse_file_data (o : TSOracle) (content : List Nat)
    (cats : List String) : List (String × List String) :=
  cats.map fun key => (key, normalize (collectCategory o content key))

def cppCategories : List String := ["includes", "functions", "classes"]

def pythonCategories : List String := ["imports", "functions", "classes"]

/-! ## Records and the main loop (analyze_repo.py lines 71-160) -/

/-- One entry of the output mapping.  `data` lists the category keys in
dictionary insertion order; `error = none` means the record carries no
`error` key at all (successful parses never add one, and the empty-file
branch deletes it on line 144). -/
structure FileRecord where
  data : List (String × List String)
  error : Option String
deriving DecidableEq, Repr

def cppTemplateData : List (String × List String) :=
  [("includes", []), ("functions", []), ("classes", [])]

def pythonTemplateData : List (String × List String) :=
  [("imports", []), ("functions", []), ("classes", [])]

/-- A file yielded by the `os.walk` traversal: the directory `root`, the
bare `filename`, and the byte content the filesystem snapshot assigns to
it.  `file_path = os.path.join(root, filename)`; walk roots (derived
from `./src`) carry no trailing separator, so join is concatenation. -/
structure DirEntry where
  root : String
  name : String
  content : List Nat
deriving DecidableEq, Repr

def filePath (e : DirEntry) : String := e.root ++ "/" ++ e.name

/-- `python_parser` is left `None` (analyze_repo.py lines 79-84: the
construction is commented out), so the truthiness test on line 128 is
always false. -/
def python_parser_isSome : Bool := false

/-- The body of the per-file loop after language dispatch
(analyze_repo.py lines 137-156): read (a read exception reaches the
outer handler and yields an error record with the template's empty
lists); empty/whitespace-only content short-circuits — and the `del
entry["error"]` on line 144 removes the error key before the line-145
loop rebuilds the remaining keys, so the stored record has no error
field; a parse exception yields an error record; otherwise the parsed
data is stored with no error key. -/
def analyzeFile (o : TSOracle) (e : DirEntry)
    (template : List (String × List String)) (cats : List String) :
    FileRecord :=
  match o.readErr (filePath e) with
  | some msg => { data := template, error := some msg }
  | none =>
    if bytesStripIsEmpty e.content then
      { data := template, error := none }
    else
      match o.parseErr e.content with
      | some msg => { data := template, error := some msg }
      | none => { data := parse_file_data o e.content cats, error := none }

/-- Language dispatch (analyze_repo.py lines 123-135): C++-like
extensions are processed; Python extensions only if `python_parser` is
truthy (it never is); every other extension is skipped (`continue`),
producing no record. -/
def processFile (o : TSOracle) (e : DirEntry) : Option FileRecord :=
  if splitext_ext e.name ∈ VALID_CPP_EXTENSIONS then
    some (analyzeFile o e cppTemplateData cppCategories)
  else if splitext_ext e.name ∈ VALID_PYTHON_EXTENSIONS ∧
      python_parser_isSome = true then
    some (analyzeFile o e pythonTemplateData pythonCategories)
  else none

/-- `repo_structure` accumulated over the walk, as an association list
in insertion order (walk paths are distinct, so dictionary insertion
never overwrites). -/
def buildIndex (o : TSOracle) (files : List DirEntry) :
    List (String × FileRecord) :=
  files.filterMap fun e => (processFile o e).map fun r => (filePath e, r)

/-! ## `json.dump(repo_structure, f, indent=4)` (analyze_repo.py line 164)

CPython's encoder with `indent=4`, default separators and
`ensure_ascii=True`: item separator `,` + newline + indent, key
separator `: `, empty containers on one line, `"`, `\`, control
characters and all non-ASCII escaped (`\uXXXX` lowercase, surrogate
pairs beyond the BMP).  No `sort_keys`, so objects serialise in
insertion order. -/

def hexDigit (n : Nat) : Char :=
  if n < 10 then Char.ofNat (48 + n) else Char.ofNat (87 + n)

def hex4 (n : Nat) : String :=
  String.mk [hexDigit (n / 4096 % 16), hexDigit (n / 256 % 16),
    hexDigit (n / 16 % 16), hexDigit (n % 16)]

def jsonEscapeChar (c : Char) : String :=
  if c = '"' then "\\\""
  else if c = '\\' then "\\\\"
  else if c = '\n' then "\\n"
  else if c = '\t' then "\\t"
  else if c = '\r' then "\\r"
  else if c = Char.ofNat 8 then "\\b"
  else if c = Char.ofNat 12 then "\\f"
  else if c.toNat < 0x20 then "\\u" ++ hex4 c.toNat
  else if c.toNat ≤ 0x7E then String.singleton c
  else if c.toNat ≤ 0xFFFF then "\\u" ++ hex4 c.toNat
  else
    "\\u" ++ hex4 (0xD800 + (c.toNat - 0x10000) / 0x400) ++
      "\\u" ++ hex4 (0xDC00 + (c.toNat - 0x10000) % 0x400)

def jsonString (s : String) : String :=
  "\"" ++ String.join (s.toList.map jsonEscapeChar) ++ "\""

def jsonPad (lvl : Nat) : String := String.mk (List.replicate (4 * lvl) ' ')

def jsonStrList (lvl : Nat) (xs : List String) : String :=
  if xs.isEmpty then "[]"
  else
    "[\n" ++
      String.intercalate ",\n" (xs.map fun x => jsonPad (lvl + 1) ++ jsonString x) ++
      "\n" ++ jsonPad lvl ++ "]"

def serializeRecord (lvl : Nat) (r : FileRecord) : String :=
  let catFields := r.data.map fun kv =>
    jsonPad (lvl + 1) ++ jsonString kv.1 ++ ": " ++ jsonStrList (lvl + 1) kv.2
  let fields := catFields ++
    (match r.error with
     | none => []
     | some msg => [jsonPad (lvl + 1) ++ jsonString "error" ++ ": " ++ jsonString msg])
  if fields.isEmpty then "\x7b\x7d"
  else "\x7b\n" ++ String.intercalate ",\n" fields ++ "\n" ++ jsonPad lvl ++ "\x7d"

def serializeIndex (idx : List (String × FileRecord)) : String :=
  if idx.isEmpty then "\x7b\x7d"
  else
    "\x7b\n" ++
      String.intercalate ",\n"
        (idx.map fun kv => jsonPad 1 ++ jsonString kv.1 ++ ": " ++ serializeRecord 1 kv.2) ++
      "\n\x7d"

/-- The run's externally visible outcome (analyze_repo.py lines
158-166): if no record was produced the program reports "No valid
source files found to analyze." and returns without writing
(`none`); otherwise it writes the serialised index (`some bytes`). -/
def runOutput (o : TSOracle) (files : List DirEntry) : Option String :=
  let idx := buildIndex o files
  if idx.isEmpty then none else some (serializeIndex idx)

end AnalyzeRepo

namespace AnalyzeRepo

theorem isCont_bounds {b : Nat} (h : isCont b = true) : 0x80 ≤ b ∧ b ≤ 0xBF := by
  simpa [isCont] using h

theorem cont1ok3_bounds {b c1 : Nat} (h : cont1ok3 b c1 = true) :
    0x80 ≤ c1 ∧ c1 ≤ 0xBF ∧ (b = 0xE0 → 0xA0 ≤ c1) ∧ (b = 0xED → c1 ≤ 0x9F) := by
  unfold cont1ok3 at h
  split at h
  · simp at h; omega
  · split at h
    · simp at h; omega
    · have := isCont_bounds h
      constructor
      · omega
      constructor
      · omega
      constructor
      · intro hb; omega
      · intro hb; omega

theorem cont1ok4_bounds {b c1 : Nat} (h : cont1ok4 b c1 = true) :
    0x80 ≤ c1 ∧ c1 ≤ 0xBF ∧ (b = 0xF0 → 0x90 ≤ c1) ∧ (b = 0xF4 → c1 ≤ 0x8F) := by
  unfold cont1ok4 at h
  split at h
  · simp at h; omega
  · split at h
    · simp at h; omega
    · have := isCont_bounds h
      constructor
      · omega
      constructor
      · omega
      constructor
      · intro hb; omega
      · intro hb; omega

theorem utf8EncodeCp_one {b : Nat} (h : b < 0x80) : utf8EncodeCp b = [b] := by
  simp [utf8EncodeCp, h]

theorem utf8EncodeCp_two {b c1 : Nat} (hb1 : 0xC2 ≤ b) (hb2 : b ≤ 0xDF)
    (hc1 : 0x80 ≤ c1) (hc2 : c1 ≤ 0xBF) :
    utf8EncodeCp ((b - 0xC0) * 0x40 + (c1 - 0x80)) = [b, c1] := by
  have h1 : ¬ ((b - 0xC0) * 0x40 + (c1 - 0x80) < 0x80) := by omega
  have h2 : (b - 0xC0) * 0x40 + (c1 - 0x80) < 0x800 := by omega
  simp only [utf8EncodeCp, if_neg h1, if_pos h2]
  have e1 : 0xC0 + ((b - 0xC0) * 0x40 + (c1 - 0x80)) / 0x40 = b := by omega
  have e2 : 0x80 + ((b - 0xC0) * 0x40 + (c1 - 0x80)) % 0x40 = c1 := by omega
  rw [e1, e2]

theorem utf8EncodeCp_three {b c1 c2 : Nat} (hb1 : 0xE0 ≤ b) (hb2 : b ≤ 0xEF)
    (hc1 : 0x80 ≤ c1) (hc2 : c1 ≤ 0xBF) (hlow : b = 0xE0 → 0xA0 ≤ c1)
    (hd1 : 0x80 ≤ c2) (hd2 : c2 ≤ 0xBF) :
    utf8EncodeCp ((b - 0xE0) * 0x1000 + (c1 - 0x80) * 0x40 + (c2 - 0x80)) = [b, c1, c2] := by
  have h1 : ¬ ((b - 0xE0) * 0x1000 + (c1 - 0x80) * 0x40 + (c2 - 0x80) < 0x80) := by omega
  have h2 : ¬ ((b - 0xE0) * 0x1000 + (c1 - 0x80) * 0x40 + (c2 - 0x80) < 0x800) := by omega
  have h3 : (b - 0xE0) * 0x1000 + (c1 - 0x80) * 0x40 + (c2 - 0x80) < 0x10000 := by omega
  simp only [utf8EncodeCp, if_neg h1, if_neg h2, if_pos h3]
  have e1 : 0xE0 + ((b - 0xE0) * 0x1000 + (c1 - 0x80) * 0x40 + (c2 - 0x80)) / 0x1000 = b := by
    omega
  have e2 : 0x80 + ((b - 0xE0) * 0x1000 + (c1 - 0x80) * 0x40 + (c2 - 0x80)) / 0x40 % 0x40 = c1 := by
    omega
  have e3 : 0x80 + ((b - 0xE0) * 0x1000 + (c1 - 0x80) * 0x40 + (c2 - 0x80)) % 0x40 = c2 := by
    omega
  rw [e1, e2, e3]

theorem utf8EncodeCp_four {b c1 c2 c3 : Nat} (hb1 : 0xF0 ≤ b) (hb2 : b ≤ 0xF4)
    (hc1 : 0x80 ≤ c1) (hc2 : c1 ≤ 0xBF) (hlow : b = 0xF0 → 0x90 ≤ c1)
    (hd1 : 0x80 ≤ c2) (hd2 : c2 ≤ 0xBF) (he1 : 0x80 ≤ c3) (he2 : c3 ≤ 0xBF) :
    utf8EncodeCp ((b - 0xF0) * 0x40000 + (c1 - 0x80) * 0x1000 + (c2 - 0x80) * 0x40 + (c3 - 0x80)) =
      [b, c1, c2, c3] := by
  have h1 : ¬ ((b - 0xF0) * 0x40000 + (c1 - 0x80) * 0x1000 + (c2 - 0x80) * 0x40 + (c3 - 0x80) < 0x80) := by omega
  have h2 : ¬ ((b - 0xF0) * 0x40000 + (c1 - 0x80) * 0x1000 + (c2 - 0x80) * 0x40 + (c3 - 0x80) < 0x800) := by omega
  have h3 : ¬ ((b - 0xF0) * 0x40000 + (c1 - 0x80) * 0x1000 + (c2 - 0x80) * 0x40 + (c3 - 0x80) < 0x10000) := by omega
  simp only [utf8EncodeCp, if_neg h1, if_neg h2, if_neg h3]
  have e1 : 0xF0 + ((b - 0xF0) * 0x40000 + (c1 - 0x80) * 0x1000 + (c2 - 0x80) * 0x40 + (c3 - 0x80)) / 0x40000 = b := by omega
  have e2 : 0x80 + ((b - 0xF0) * 0x40000 + (c1 - 0x80) * 0x1000 + (c2 - 0x80) * 0x40 + (c3 - 0x80)) / 0x1000 % 0x40 = c1 := by omega
  have e3 : 0x80 + ((b - 0xF0) * 0x40000 + (c1 - 0x80) * 0x1000 + (c2 - 0x80) * 0x40 + (c3 - 0x80)) / 0x40 % 0x40 = c2 := by omega
  have e4 : 0x80 + ((b - 0xF0) * 0x40000 + (c1 - 0x80) * 0x1000 + (c2 - 0x80) * 0x40 + (c3 - 0x80)) % 0x40 = c3 := by omega
  rw [e1, e2, e3, e4]

end AnalyzeRepo

namespace AnalyzeRepo

theorem utf8Encode_cons (c : Nat) (l : List Nat) :
    utf8Encode (c :: l) = utf8EncodeCp c ++ utf8Encode l := rfl

/-- The tolerant decoder is sound: re-encoding its output gives back a
subsequence of the input bytes — every decoded code point comes from a
validly encoded span of the input, in order, and undecodable bytes are
dropped, never replaced. -/
theorem utf8Encode_decode_sublist (l : List Nat) :
    (utf8Encode (utf8DecodeIgnore l)).Sublist l := by
  induction l using utf8DecodeIgnore.induct
  case case1 => simp [utf8DecodeIgnore, utf8Encode]
  case case2 b r hb ih =>
    rw [show utf8DecodeIgnore (b :: r) = b :: utf8DecodeIgnore r by
      conv_lhs => unfold utf8DecodeIgnore
      rw [if_pos hb]]
    rw [utf8Encode_cons, utf8EncodeCp_one hb]
    exact ih.cons₂ b
  case case3 b r h1 h2 ih =>
    rw [show utf8DecodeIgnore (b :: r) = utf8DecodeIgnore r by
      conv_lhs => unfold utf8DecodeIgnore
      rw [if_neg h1, if_pos h2]]
    exact ih.cons b
  case case4 b h1 h2 h3 =>
    rw [show utf8DecodeIgnore [b] = [] by
      conv_lhs => unfold utf8DecodeIgnore
      rw [if_neg h1, if_neg h2, if_pos h3]]
    simp [utf8Encode]
  case case5 b h1 h2 h3 c1 r1 hc ih =>
    rw [show utf8DecodeIgnore (b :: c1 :: r1) =
        ((b - 0xC0) * 0x40 + (c1 - 0x80)) :: utf8DecodeIgnore r1 by
      conv_lhs => unfold utf8DecodeIgnore
      rw [if_neg h1, if_neg h2, if_pos h3]
      simp only [hc, if_pos]]
    have hb := isCont_bounds hc
    rw [utf8Encode_cons, utf8EncodeCp_two (by omega) (by omega) hb.1 hb.2]
    exact (ih.cons₂ c1).cons₂ b
  case case6 b h1 h2 h3 c1 r1 hc ih =>
    rw [show utf8DecodeIgnore (b :: c1 :: r1) = utf8DecodeIgnore (c1 :: r1) by
      conv_lhs => unfold utf8DecodeIgnore
      rw [if_neg h1, if_neg h2, if_pos h3]
      simp only [if_neg hc]]
    exact ih.cons b
  case case7 b h1 h2 h3 h4 =>
    rw [show utf8DecodeIgnore [b] = [] by
      conv_lhs => unfold utf8DecodeIgnore
      rw [if_neg h1, if_neg h2, if_neg h3, if_pos h4]]
    simp [utf8Encode]
  case case8 b h1 h2 h3 h4 c1 hc =>
    rw [show utf8DecodeIgnore [b, c1] = [] by
      conv_lhs => unfold utf8DecodeIgnore
      rw [if_neg h1, if_neg h2, if_neg h3, if_pos h4]
      simp only [hc, if_pos]]
    simp [utf8Encode]
  case case9 b h1 h2 h3 h4 c1 hc c2 r2 hc2 ih =>
    rw [show utf8DecodeIgnore (b :: c1 :: c2 :: r2) =
        ((b - 0xE0) * 0x1000 + (c1 - 0x80) * 0x40 + (c2 - 0x80)) :: utf8DecodeIgnore r2 by
      conv_lhs => unfold utf8DecodeIgnore
      rw [if_neg h1, if_neg h2, if_neg h3, if_pos h4]
      simp only [hc, if_pos]
      simp only [hc2, if_pos]]
    have hb1 := cont1ok3_bounds hc
    have hb2 := isCont_bounds hc2
    rw [utf8Encode_cons,
      utf8EncodeCp_three (by omega) (by omega) hb1.1 hb1.2.1 hb1.2.2.1 hb2.1 hb2.2]
    exact ((ih.cons₂ c2).cons₂ c1).cons₂ b
  case case10 b h1 h2 h3 h4 c1 hc c2 r2 hc2 ih =>
    rw [show utf8DecodeIgnore (b :: c1 :: c2 :: r2) = utf8DecodeIgnore (c2 :: r2) by
      conv_lhs => unfold utf8DecodeIgnore
      rw [if_neg h1, if_neg h2, if_neg h3, if_pos h4]
      simp only [hc, if_pos]
      simp only [if_neg hc2]]
    exact (ih.cons c1).cons b
  case case11 b h1 h2 h3 h4 c1 r1 hc ih =>
    rw [show utf8DecodeIgnore (b :: c1 :: r1) = utf8DecodeIgnore (c1 :: r1) by
      conv_lhs => unfold utf8DecodeIgnore
      rw [if_neg h1, if_neg h2, if_neg h3, if_pos h4]
      simp only [if_neg hc]]
    exact ih.cons b
  case case12 b h1 h2 h3 h4 h5 =>
    rw [show utf8DecodeIgnore [b] = [] by
      conv_lhs => unfold utf8DecodeIgnore
      rw [if_neg h1, if_neg h2, if_neg h3, if_neg h4, if_pos h5]]
    simp [utf8Encode]
  case case13 b h1 h2 h3 h4 h5 c1 hc =>
    rw [show utf8DecodeIgnore [b, c1] = [] by
      conv_lhs => unfold utf8DecodeIgnore
      rw [if_neg h1, if_neg h2, if_neg h3, if_neg h4, if_pos h5]
      simp only [hc, if_pos]]
    simp [utf8Encode]
  case case14 b h1 h2 h3 h4 h5 c1 hc c2 hc2 =>
    rw [show utf8DecodeIgnore [b, c1, c2] = [] by
      conv_lhs => unfold utf8DecodeIgnore
      rw [if_neg h1, if_neg h2, if_neg h3, if_neg h4, if_pos h5]
      simp only [hc, if_pos]
      simp only [hc2, if_pos]]
    simp [utf8Encode]
  case case15 b h1 h2 h3 h4 h5 c1 hc c2 hc2 c3 r3 hc3 ih =>
    rw [show utf8DecodeIgnore (b :: c1 :: c2 :: c3 :: r3) =
        ((b - 0xF0) * 0x40000 + (c1 - 0x80) * 0x1000 + (c2 - 0x80) * 0x40 + (c3 - 0x80)) ::
          utf8DecodeIgnore r3 by
      conv_lhs => unfold utf8DecodeIgnore
      rw [if_neg h1, if_neg h2, if_neg h3, if_neg h4, if_pos h5]
      simp only [hc, if_pos]
      simp only [hc2, if_pos]
      simp only [hc3, if_pos]]
    have hb1 := cont1ok4_bounds hc
    have hb2 := isCont_bounds hc2
    have hb3 := isCont_bounds hc3
    rw [utf8Encode_cons,
      utf8EncodeCp_four (by omega) (by omega) hb1.1 hb1.2.1 hb1.2.2.1 hb2.1 hb2.2 hb3.1 hb3.2]
    exact (((ih.cons₂ c3).cons₂ c2).cons₂ c1).cons₂ b
  case case16 b h1 h2 h3 h4 h5 c1 hc c2 hc2 c3 r3 hc3 ih =>
    rw [show utf8DecodeIgnore (b :: c1 :: c2 :: c3 :: r3) = utf8DecodeIgnore (c3 :: r3) by
      conv_lhs => unfold utf8DecodeIgnore
      rw [if_neg h1, if_neg h2, if_neg h3, if_neg h4, if_pos h5]
      simp only [hc, if_pos]
      simp only [hc2, if_pos]
      simp only [if_neg hc3]]
    exact ((ih.cons c2).cons c1).cons b
  case case17 b h1 h2 h3 h4 h5 c1 hc c2 r2 hc2 ih =>
    rw [show utf8DecodeIgnore (b :: c1 :: c2 :: r2) = utf8DecodeIgnore (c2 :: r2) by
      conv_lhs => unfold utf8DecodeIgnore
      rw [if_neg h1, if_neg h2, if_neg h3, if_neg h4, if_pos h5]
      simp only [hc, if_pos]
      simp only [if_neg hc2]]
    exact (ih.cons c1).cons b
  case case18 b h1 h2 h3 h4 h5 c1 r1 hc ih =>
    rw [show utf8DecodeIgnore (b :: c1 :: r1) = utf8DecodeIgnore (c1 :: r1) by
      conv_lhs => unfold utf8DecodeIgnore
      rw [if_neg h1, if_neg h2, if_neg h3, if_neg h4, if_pos h5]
      simp only [if_neg hc]]
    exact ih.cons b
  case case19 b r h1 h2 h3 h4 h5 ih =>
    rw [show utf8DecodeIgnore (b :: r) = utf8DecodeIgnore r by
      conv_lhs => unfold utf8DecodeIgnore
      rw [if_neg h1, if_neg h2, if_neg h3, if_neg h4, if_neg h5]]
    exact ih.cons b

end AnalyzeRepo

namespace AnalyzeRepo

theorem char_toNat_inj {a b : Char} (h : a.toNat = b.toNat) : a = b :=
  Char.ext (UInt32.toNat.inj h)

theorem charListLe_total : ∀ as bs : List Char,
    charListLe as bs = true ∨ charListLe bs as = true := by
  intro as
  induction as with
  | nil => intro bs; left; rfl
  | cons a at2 ih =>
    intro bs
    cases bs with
    | nil => right; rfl
    | cons b bt =>
      simp only [charListLe]
      rcases Nat.lt_trichotomy a.toNat b.toNat with h | h | h
      · left; rw [if_pos h]
      · rw [if_neg (by omega), if_neg (by omega), if_neg (by omega),
          if_neg (by omega)]
        exact ih bt
      · right; rw [if_pos h]

theorem charListLe_trans : ∀ as bs cs : List Char,
    charListLe as bs = true → charListLe bs cs = true →
    charListLe as cs = true := by
  intro as
  induction as with
  | nil => intro bs cs h1 h2; rfl
  | cons a at2 ih =>
    intro bs cs h1 h2
    cases bs with
    | nil => simp [charListLe] at h1
    | cons b bt =>
      cases cs with
      | nil => simp [charListLe] at h2
      | cons c ct =>
        simp only [charListLe] at h1 h2 ⊢
        rcases Nat.lt_trichotomy a.toNat b.toNat with hab | hab | hab
        · rcases Nat.lt_trichotomy b.toNat c.toNat with hbc | hbc | hbc
          · rw [if_pos (by omega)]
          · rw [if_pos (by omega)]
          · rw [if_neg (by omega), if_pos (by omega)] at h2
            exact absurd h2 (by simp)
        · rcases Nat.lt_trichotomy b.toNat c.toNat with hbc | hbc | hbc
          · rw [if_pos (by omega)]
          · rw [if_neg (by omega), if_neg (by omega)] at h1
            rw [if_neg (by omega), if_neg (by omega)] at h2
            rw [if_neg (by omega), if_neg (by omega)]
            exact ih bt ct h1 h2
          · rw [if_neg (by omega), if_pos (by omega)] at h2
            exact absurd h2 (by simp)
        · rw [if_neg (by omega), if_pos (by omega)] at h1
          exact absurd h1 (by simp)

theorem charListLe_antisymm : ∀ as bs : List Char,
    charListLe as bs = true → charListLe bs as = true → as = bs := by
  intro as
  induction as with
  | nil =>
    intro bs h1 h2
    cases bs with
    | nil => rfl
    | cons b bt => simp [charListLe] at h2
  | cons a at2 ih =>
    intro bs h1 h2
    cases bs with
    | nil => simp [charListLe] at h1
    | cons b bt =>
      simp only [charListLe] at h1 h2
      rcases Nat.lt_trichotomy a.toNat b.toNat with hab | hab | hab
      · rw [if_neg (by omega), if_pos (by omega)] at h2
        exact absurd h2 (by simp)
      · rw [if_neg (by omega), if_neg (by omega)] at h1
        rw [if_neg (by omega), if_neg (by omega)] at h2
        rw [char_toNat_inj hab, ih bt h1 h2]
      · rw [if_neg (by omega), if_pos (by omega)] at h1
        exact absurd h1 (by simp)

instance : IsTotal String pyLe :=
  ⟨fun a b => charListLe_total a.toList b.toList⟩

instance : IsTrans String pyLe :=
  ⟨fun a b c => charListLe_trans a.toList b.toList c.toList⟩

instance : IsAntisymm String pyLe :=
  ⟨fun a b h1 h2 => by
    have := charListLe_antisymm a.toList b.toList h1 h2
    exact String.toList_inj.mp this⟩

theorem normalize_perm_dedup (l : List String) : (normalize l).Perm l.dedup :=
  List.perm_insertionSort _ _

theorem normalize_sorted (l : List String) :
    (normalize l).Sorted pyLe :=
  List.sorted_insertionSort _ _

theorem normalize_nodup (l : List String) : (normalize l).Nodup :=
  (normalize_perm_dedup l).symm.nodup (l.nodup_dedup)

theorem normalize_mem (a : String) (l : List String) :
    a ∈ normalize l ↔ a ∈ l := by
  rw [(normalize_perm_dedup l).mem_iff, List.mem_dedup]

theorem normalize_eq_of_perm {p l : List String} (h : p.Perm l) :
    normalize p = normalize l := by
  apply List.eq_of_perm_of_sorted _ (normalize_sorted p) (normalize_sorted l)
  exact ((normalize_perm_dedup p).trans h.dedup).trans (normalize_perm_dedup l).symm

theorem normalize_idem (l : List String) :
    normalize (normalize l) = normalize l := by
  apply List.eq_of_perm_of_sorted _ (normalize_sorted (normalize l)) (normalize_sorted l)
  have h := normalize_perm_dedup (normalize l)
  rw [List.dedup_eq_self.mpr (normalize_nodup l)] at h
  exact h

end AnalyzeRepo

namespace AnalyzeRepo

theorem dropWhile_head_not (p : Char → Bool) (l : List Char) :
    ∀ a, (l.dropWhile p).head? = some a → p a = false := by
  induction l with
  | nil => intro a h; simp at h
  | cons b t ih =>
    intro a h
    rw [List.dropWhile_cons] at h
    by_cases hb : p b = true
    · exact ih a (by simpa [hb] using h)
    · simp [hb] at h
      subst h
      simpa using hb

theorem dropWhile_eq_self_of_head (p : Char → Bool) (l : List Char)
    (h : ∀ a, l.head? = some a → p a = false) : l.dropWhile p = l := by
  cases l with
  | nil => rfl
  | cons b t =>
    have hb := h b rfl
    rw [List.dropWhile_cons]
    simp [hb]

theorem getLast?_dropWhile (p : Char → Bool) (l : List Char)
    (h : l.dropWhile p ≠ []) : (l.dropWhile p).getLast? = l.getLast? := by
  induction l with
  | nil => simp at h
  | cons b t ih =>
    rw [List.dropWhile_cons]
    by_cases hb : p b = true
    · rw [List.dropWhile_cons, if_pos hb] at h
      have ht : t ≠ [] := by
        intro he
        subst he
        simp at h
      rw [if_pos hb, ih h]
      cases t with
      | nil => exact absurd rfl ht
      | cons c t2 => rw [List.getLast?_cons_cons]
    · rw [if_neg hb]

theorem stripEdges_idem (l : List Char) :
    stripEdges (stripEdges l) = stripEdges l := by
  unfold stripEdges
  set d := l.dropWhile inStripSet with hd
  set u := d.reverse.dropWhile inStripSet with hu
  have step1 : u.reverse.dropWhile inStripSet = u.reverse := by
    apply dropWhile_eq_self_of_head
    intro a ha
    rw [List.head?_reverse] at ha
    have hne : u ≠ [] := by
      intro he
      rw [he] at ha
      simp at ha
    rw [hu, getLast?_dropWhile _ _ (hu ▸ hne), List.getLast?_reverse] at ha
    exact dropWhile_head_not _ _ a ha
  rw [step1, List.reverse_reverse]
  have step2 : u.dropWhile inStripSet = u := by
    apply dropWhile_eq_self_of_head
    intro a ha
    exact dropWhile_head_not _ _ a (hu ▸ ha)
  rw [step2]

theorem pyStrip_idem (s : String) : pyStrip (pyStrip s) = pyStrip s := by
  show String.mk (stripEdges (String.mk (stripEdges s.toList)).toList) =
    String.mk (stripEdges s.toList)
  rw [show (String.mk (stripEdges s.toList)).toList = stripEdges s.toList from rfl,
    stripEdges_idem]

theorem mem_collectCategory_includes_stripped (o : TSOracle) (c : List Nat) :
    ∀ s ∈ collectCategory o c "includes", pyStrip s = s := by
  unfold collectCategory
  cases h : o.queryRes c "includes" with
  | error msg => simp
  | ok spans =>
    intro s hs
    simp only [List.mem_map] at hs
    obtain ⟨sp, -, rfl⟩ := hs
    simp only [true_or, if_true]
    exact pyStrip_idem _

end AnalyzeRepo

namespace AnalyzeRepo

theorem processFile_cpp {o : TSOracle} {e : DirEntry}
    (h : splitext_ext e.name ∈ VALID_CPP_EXTENSIONS) :
    processFile o e = some (analyzeFile o e cppTemplateData cppCategories) := by
  unfold processFile
  rw [if_pos h]

theorem processFile_eq_some {o : TSOracle} {e : DirEntry} {r : FileRecord}
    (h : processFile o e = some r) :
    splitext_ext e.name ∈ VALID_CPP_EXTENSIONS := by
  by_cases hc : splitext_ext e.name ∈ VALID_CPP_EXTENSIONS
  · exact hc
  · exfalso
    unfold processFile at h
    rw [if_neg hc] at h
    rw [if_neg (by simp [python_parser_isSome])] at h
    exact Option.noConfusion h

theorem mem_keys_buildIndex {o : TSOracle} {files : List DirEntry} {k : String}
    (h : k ∈ (buildIndex o files).map Prod.fst) :
    ∃ e ∈ files, filePath e = k ∧ splitext_ext e.name ∈ VALID_CPP_EXTENSIONS := by
  simp only [buildIndex, List.map_filterMap] at h
  rw [List.mem_filterMap] at h
  obtain ⟨e, he, hk⟩ := h
  cases hp : processFile o e with
  | none => rw [hp] at hk; exact Option.noConfusion hk
  | some r =>
    rw [hp] at hk
    simp only [Option.map_some, Option.map] at hk
    refine ⟨e, he, ?_, processFile_eq_some hp⟩
    simpa using hk

theorem keys_buildIndex_sublist (o : TSOracle) (files : List DirEntry) :
    ((buildIndex o files).map Prod.fst).Sublist (files.map filePath) := by
  induction files with
  | nil => simp [buildIndex]
  | cons e fs ih =>
    rw [show buildIndex o (e :: fs) =
        match processFile o e with
        | none => buildIndex o fs
        | some r => (filePath e, r) :: buildIndex o fs by
      simp [buildIndex, List.filterMap_cons]
      cases processFile o e <;> simp]
    cases processFile o e with
    | none => exact ih.cons (filePath e)
    | some r => exact ih.cons₂ (filePath e)

theorem key_mem_buildIndex {o : TSOracle} {files : List DirEntry} {e : DirEntry}
    (he : e ∈ files) (hext : splitext_ext e.name ∈ VALID_CPP_EXTENSIONS) :
    filePath e ∈ (buildIndex o files).map Prod.fst := by
  simp only [buildIndex, List.map_filterMap]
  rw [List.mem_filterMap]
  exact ⟨e, he, by rw [processFile_cpp hext]; rfl⟩

end AnalyzeRepo

namespace AnalyzeRepo

/-! ## Concrete fixtures used by witnesses and counterexamples -/

/-- An oracle under which reads succeed, parses succeed and every query
captures nothing. -/
def oracle0 : TSOracle :=
  { readErr := fun _ => none, parseErr := fun _ => none,
    queryRes := fun _ _ => .ok [] }

def entryAH : DirEntry := { root := "./src", name := "a.h", content := [120] }

def entryBH : DirEntry := { root := "./src", name := "b.h", content := [120] }

def entryPy : DirEntry := { root := "./src", name := "m.py", content := [120] }

def entryMd : DirEntry :=
  { root := "./src", name := "README.md", content := [120] }

def entryEmpty : DirEntry := { root := "./src", name := "empty.h", content := [] }

end AnalyzeRepo

namespace AnalyzeRepo

/-! ## Claim theorems -/

/-- Claim C1, amended: for a fixed snapshot the per-file records do not
depend on the traversal order — a permutation of the walk permutes the
accumulated index, entry for entry — and a run is a pure function of
the snapshot and traversal order, so two runs with the same traversal
are byte-identical.  The serialised document, however, lists records in
traversal order (no key sorting), so different traversal orders yield
permuted, generally byte-different documents. -/
theorem index_perm_of_traversal_perm (o : TSOracle)
    (files1 files2 : List DirEntry) (h : files1.Perm files2) :
    (buildIndex o files1).Perm (buildIndex o files2) :=
  h.filterMap _

theorem index_perm_of_traversal_perm_witness :
    (buildIndex oracle0 [entryAH, entryBH]).Perm
      (buildIndex oracle0 [entryBH, entryAH]) :=
  index_perm_of_traversal_perm oracle0 _ _ (by decide)

/-- Claim C1 counterexample: the same snapshot walked in two different
orders produces two output documents that are not byte-identical, so
the determinism-regardless-of-traversal-order claim fails on the code
(`json.dump` is called without key sorting on the insertion-ordered
dictionary). -/
theorem byte_identical_output_cex :
    [entryAH, entryBH].Perm [entryBH, entryAH] ∧
    runOutput oracle0 [entryAH, entryBH] ≠ runOutput oracle0 [entryBH, entryAH] := by
  constructor
  · decide
  · decide

/-- Claim C3, amended: text extraction takes exactly the byte span
`[start_byte, end_byte)` of the captured node and decodes it as UTF-8;
undecodable subsequences are dropped (ignored), not replaced by a
placeholder and not an error: re-encoding the extracted text yields a
subsequence of exactly that byte span. -/
theorem get_node_text_exact_span (content : List Nat) (s e : Nat) :
    get_node_text content s e =
      utf8DecodeIgnore ((content.drop s).take (e - s)) ∧
    (utf8Encode (get_node_text content s e)).Sublist
      ((content.drop s).take (e - s)) :=
  ⟨rfl, utf8Encode_decode_sublist _⟩

/-- Claim C3 counterexample: the byte sequence `[0xFF, 0x61]` contains
the undecodable subsequence `[0xFF]`, yet extraction returns just `"a"`
(code point 97): the undecodable byte is dropped with no placeholder
character substituted for it. -/
theorem get_node_text_placeholder_cex :
    get_node_text [0xFF, 0x61] 0 2 = [97] ∧
    ¬ ∃ placeholder, get_node_text [0xFF, 0x61] 0 2 = [placeholder, 97] := by
  refine ⟨by decide, ?_⟩
  rintro ⟨p, hp⟩
  rw [show get_node_text [0xFF, 0x61] 0 2 = [97] by decide] at hp
  simp at hp

/-- Claim C4, amended: every discovered file whose extension belongs to
the C++ profile (`.h`, `.cpp`, `.i`) yields exactly one record keyed by
its path, whether or not extraction succeeded; `.py` is registered but
its parser is never constructed, so `.py` files yield no record (see
the counterexample and claim C10). -/
theorem one_record_per_cpp_file (o : TSOracle) (files : List DirEntry)
    (e : DirEntry) (hnd : (files.map filePath).Nodup) (he : e ∈ files)
    (hext : splitext_ext e.name ∈ VALID_CPP_EXTENSIONS) :
    ((buildIndex o files).map Prod.fst).count (filePath e) = 1 :=
  List.count_eq_one_of_mem
    ((keys_buildIndex_sublist o files).nodup hnd)
    (key_mem_buildIndex he hext)

theorem one_record_per_cpp_file_witness :
    ((buildIndex oracle0 [entryAH]).map Prod.fst).count (filePath entryAH) = 1 :=
  one_record_per_cpp_file oracle0 [entryAH] entryAH (by decide) (by decide)
    (by decide)

/-- Claim C4 counterexample: `.py` is a registered profile extension,
`m.py` has that extension and is discovered, yet the run produces no
record for it — the output mapping is empty, not a one-record map. -/
theorem one_record_py_cex :
    ".py" ∈ VALID_PYTHON_EXTENSIONS ∧ splitext_ext "m.py" = ".py" ∧
    buildIndex oracle0 [entryPy] = [] ∧
    ((buildIndex oracle0 [entryPy]).map Prod.fst).count (filePath entryPy) = 0 := by
  refine ⟨by decide, by decide, by decide, by decide⟩

/-- Claim C9: the run writes no output document exactly when zero files
produced records; in that case it reports the no-files condition
(returns before the write) rather than writing an empty index. -/
theorem no_records_no_write (o : TSOracle) (files : List DirEntry) :
    runOutput o files = none ↔ buildIndex o files = [] := by
  unfold runOutput
  cases h : (buildIndex o files).isEmpty with
  | true => simp [h, List.isEmpty_iff.mp h]
  | false =>
    simp [h]
    intro hc
    rw [hc] at h
    simp at h

theorem no_records_no_write_witness :
    runOutput oracle0 ([] : List DirEntry) = none :=
  (no_records_no_write oracle0 []).mpr (by decide)

/-- Claim C10: a discovered `.py` file is never processed — the Python
parser is left unconstructed (`python_parser = None`), so the dispatch
falls through to `continue` — and its path never appears as a key of
the output mapping. -/
theorem py_file_never_indexed (o : TSOracle) (files : List DirEntry)
    (e : DirEntry) (hnd : (files.map filePath).Nodup) (he : e ∈ files)
    (hext : splitext_ext e.name = ".py") :
    processFile o e = none ∧
    filePath e ∉ (buildIndex o files).map Prod.fst := by
  have hnc : splitext_ext e.name ∉ VALID_CPP_EXTENSIONS := by
    rw [hext]; decide
  constructor
  · unfold processFile
    rw [if_neg hnc, if_neg (by simp [python_parser_isSome])]
  · intro hmem
    obtain ⟨f, hf, hfe, hfext⟩ := mem_keys_buildIndex hmem
    have : f = e := List.inj_on_of_nodup_map hnd hf he hfe
    rw [this] at hfext
    exact hnc hfext

theorem py_file_never_indexed_witness :
    processFile oracle0 entryPy = none ∧
    filePath entryPy ∉ (buildIndex oracle0 [entryPy]).map Prod.fst :=
  py_file_never_indexed oracle0 [entryPy] entryPy (by decide) (by decide)
    (by decide)

end AnalyzeRepo

namespace AnalyzeRepo

/-- An oracle under which every file read raises. -/
def oracleRead : TSOracle :=
  { readErr := fun _ => some "io error", parseErr := fun _ => none,
    queryRes := fun _ _ => .ok [] }

/-- An oracle under which every parse raises. -/
def oracleParse : TSOracle :=
  { readErr := fun _ => none, parseErr := fun _ => some "parse error",
    queryRes := fun _ _ => .ok [] }

/-- An oracle under which the includes and classes queries raise while
the functions query captures the whole (one-byte) file. -/
def oracleQ : TSOracle :=
  { readErr := fun _ => none, parseErr := fun _ => none,
    queryRes := fun _ key =>
      if key = "functions" then .ok [(0, 1)] else .error "query failed" }

def entryFH : DirEntry := { root := "./src", name := "f.h", content := [102] }

/-- An oracle whose every query captures the byte span `[0, 11)`. -/
def oracleInc : TSOracle :=
  { readErr := fun _ => none, parseErr := fun _ => none,
    queryRes := fun _ _ => .ok [(0, 11)] }

/-- The bytes of `<foo/bar.h>`. -/
def contentInc : List Nat := [60, 102, 111, 111, 47, 98, 97, 114, 46, 104, 62]

/-- Claim C2, amended: an exception while reading or parsing a file is
caught at file granularity — the record's error field is set to its
description, every category list is empty, and the file still yields a
record (the run continues).  An exception during query execution,
however, is caught per category inside `parse_file_data`: the record's
error field stays unset, only that category's list is empty, and the
other categories are extracted normally. -/
theorem per_file_error_isolation :
    (∀ (o : TSOracle) (e : DirEntry) (msg : String),
      splitext_ext e.name ∈ VALID_CPP_EXTENSIONS →
      o.readErr (filePath e) = some msg →
      processFile o e = some { data := cppTemplateData, error := some msg }) ∧
    (∀ (o : TSOracle) (e : DirEntry) (msg : String),
      splitext_ext e.name ∈ VALID_CPP_EXTENSIONS →
      o.readErr (filePath e) = none →
      bytesStripIsEmpty e.content = false →
      o.parseErr e.content = some msg →
      processFile o e = some { data := cppTemplateData, error := some msg }) ∧
    (∀ (o : TSOracle) (e : DirEntry) (msg : String),
      splitext_ext e.name ∈ VALID_CPP_EXTENSIONS →
      o.readErr (filePath e) = none →
      bytesStripIsEmpty e.content = false →
      o.parseErr e.content = none →
      o.queryRes e.content "includes" = .error msg →
      processFile o e = some
        { data := [("includes", []),
            ("functions", normalize (collectCategory o e.content "functions")),
            ("classes", normalize (collectCategory o e.content "classes"))],
          error := none }) := by
  refine ⟨?_, ?_, ?_⟩
  · intro o e msg hext hread
    rw [processFile_cpp hext]
    unfold analyzeFile
    rw [hread]
  · intro o e msg hext hread hne hparse
    rw [processFile_cpp hext]
    unfold analyzeFile
    rw [hread, hne, hparse]
    simp
  · intro o e msg hext hread hne hparse hq
    rw [processFile_cpp hext]
    unfold analyzeFile
    rw [hread, hne, hparse]
    simp only [Bool.false_eq_true, if_false]
    congr 1
    unfold parse_file_data cppCategories
    simp only [List.map_cons, List.map_nil]
    rw [show collectCategory o e.content "includes" = [] by
      unfold collectCategory
      rw [hq]]
    rfl

theorem per_file_error_isolation_witness :
    processFile oracleRead entryFH =
      some { data := cppTemplateData, error := some "io error" } ∧
    processFile oracleParse entryFH =
      some { data := cppTemplateData, error := some "parse error" } ∧
    processFile oracleQ entryFH =
      some { data := [("includes", []),
               ("functions", normalize (collectCategory oracleQ [102] "functions")),
               ("classes", normalize (collectCategory oracleQ [102] "classes"))],
             error := none } :=
  ⟨per_file_error_isolation.1 oracleRead entryFH "io error" (by decide) rfl,
   per_file_error_isolation.2.1 oracleParse entryFH "parse error" (by decide)
     rfl (by decide) rfl,
   per_file_error_isolation.2.2 oracleQ entryFH "query failed" (by decide)
     rfl (by decide) rfl rfl⟩

/-- Claim C2 counterexample: under an oracle whose includes and classes
queries raise while the functions query succeeds, the record for
`./src/f.h` has no error set and a non-empty functions list — the claim
that any query-execution exception sets the record's error and forces
all category lists empty is false. -/
theorem query_error_sets_no_error_cex :
    processFile oracleQ entryFH = some
      { data := [("includes", []), ("functions", ["f"]), ("classes", [])],
        error := none } := by
  decide

end AnalyzeRepo

namespace AnalyzeRepo

/-- Claim C5: code bug.  An empty (or whitespace-only) file is detected
before any parse — the result does not depend on the parse or query
oracle at all — and the code intends to store `error = "empty file"`
(the inline comment on line 144 says "No, keep error"), but the
executed `del entry["error"]` removes the key and the line-145 rebuild
never restores it: the stored record has empty category lists and NO
error field.  This theorem evaluates the code at the failing input. -/
theorem empty_file_record_eval (o : TSOracle)
    (h : o.readErr (filePath entryEmpty) = none) :
    processFile o entryEmpty = some { data := cppTemplateData, error := none } := by
  rw [processFile_cpp (by decide)]
  unfold analyzeFile
  rw [h]
  simp [entryEmpty, bytesStripIsEmpty]

theorem empty_file_record_eval_witness :
    processFile oracle0 entryEmpty =
      some { data := cppTemplateData, error := none } :=
  empty_file_record_eval oracle0 rfl

/-- Claim C6: the normalisation is idempotent, produces no duplicates,
sorts ascending lexicographically, preserves the element set, and is
invariant under permutation of the raw capture list. -/
theorem normalize_correct (L : List String) :
    normalize (normalize L) = normalize L ∧
    (normalize L).Nodup ∧
    (normalize L).Sorted pyLe ∧
    (∀ a, a ∈ normalize L ↔ a ∈ L) ∧
    (∀ P : List String, P.Perm L → normalize P = normalize L) :=
  ⟨normalize_idem L, normalize_nodup L, normalize_sorted L,
    fun a => normalize_mem a L, fun _ h => normalize_eq_of_perm h⟩

theorem normalize_correct_witness :
    normalize ["b", "a", "b"] = ["a", "b"] ∧
    normalize ["a", "b", "b"] = normalize ["b", "a", "b"] :=
  ⟨by decide,
    (normalize_correct ["b", "a", "b"]).2.2.2.2 ["a", "b", "b"] (by decide)⟩

/-- Claim C7: captured include strings are stripped of the characters
`"`, `<`, `>` at both edges — the quoted form `"foo/bar.h"` and the
angle-bracket form `<foo/bar.h>` both normalise to the bare path
`foo/bar.h` — and consequently every string in the includes category is
a fixed point of the strip (its edges carry none of those characters). -/
theorem includes_stripped (o : TSOracle) (c : List Nat) :
    pyStrip "\"foo/bar.h\"" = "foo/bar.h" ∧
    pyStrip "<foo/bar.h>" = "foo/bar.h" ∧
    (∀ s ∈ normalize (collectCategory o c "includes"), pyStrip s = s) := by
  refine ⟨by decide, by decide, ?_⟩
  intro s hs
  exact mem_collectCategory_includes_stripped o c s
    ((normalize_mem s _).mp hs)

theorem includes_stripped_witness :
    pyStrip "foo/bar.h" = "foo/bar.h" :=
  (includes_stripped oracleInc contentInc).2.2 "foo/bar.h" (by decide)

/-- Claim C8: a file whose extension matches no registered profile (such
as `README.md`) is silently skipped: it produces no record and its path
does not appear as a key of the output mapping; no error is recorded
anywhere for it. -/
theorem unrecognized_extension_skipped (o : TSOracle) (files : List DirEntry)
    (e : DirEntry) (hnd : (files.map filePath).Nodup) (he : e ∈ files)
    (h1 : splitext_ext e.name ∉ VALID_CPP_EXTENSIONS)
    (_h2 : splitext_ext e.name ∉ VALID_PYTHON_EXTENSIONS) :
    processFile o e = none ∧
    filePath e ∉ (buildIndex o files).map Prod.fst := by
  constructor
  · unfold processFile
    rw [if_neg h1, if_neg (by simp [python_parser_isSome])]
  · intro hmem
    obtain ⟨f, hf, hfe, hfext⟩ := mem_keys_buildIndex hmem
    have : f = e := List.inj_on_of_nodup_map hnd hf he hfe
    rw [this] at hfext
    exact h1 hfext

theorem unrecognized_extension_skipped_witness :
    processFile oracle0 entryMd = none ∧
    filePath entryMd ∉ (buildIndex oracle0 [entryMd, entryAH]).map Prod.fst :=
  unrecognized_extension_skipped oracle0 [entryMd, entryAH] entryMd
    (by decide) (by decide) (by decide) (by decide)

end AnalyzeRepo
